import Mathlib

/-!
Verification of the conduit-go request-processing core against its
specification: the MySQL grammar compiler, the query builder, the
token-bucket rate limiter, the CSRF middleware, the trie router and the
scanner-cache reaper, shallowly embedded in Lean from the Go sources.
-/

namespace Conduit

/-! ### Models of the Go standard string operations used by the sources -/

/-- Model of the character table behind strings.ToUpper restricted to the
ASCII range, which is the only range the grammar feeds it. -/
def lowerUpperTable : List (Char × Char) :=
  [('a','A'),('b','B'),('c','C'),('d','D'),('e','E'),('f','F'),('g','G'),
   ('h','H'),('i','I'),('j','J'),('k','K'),('l','L'),('m','M'),('n','N'),
   ('o','O'),('p','P'),('q','Q'),('r','R'),('s','S'),('t','T'),('u','U'),
   ('v','V'),('w','W'),('x','X'),('y','Y'),('z','Z')]

/-- Upper-case one character, as strings.ToUpper does on ASCII input. -/
def charUp (c : Char) : Char :=
  match lowerUpperTable.find? (fun p => p.1 = c) with
  | some p => p.2
  | none => c

/-- Model of strings.ToUpper. -/
def goToUpper (s : String) : String :=
  String.mk (s.data.map charUp)

/-- The white-space characters stripped by strings.TrimSpace (ASCII part). -/
def wsChars : List Char := [' ', '\t', '\n', '\x0b', '\x0c', '\r']

/-- Is the character white space, in the sense of unicode.IsSpace on ASCII. -/
def isWs (c : Char) : Bool := wsChars.contains c

/-- Model of strings.TrimSpace: drop white space from both ends. -/
def goTrim (s : String) : String :=
  String.mk ((((s.data.dropWhile isWs).reverse).dropWhile isWs).reverse)

/-- Model of strings.Split with a one-character separator. -/
def splitCh (sep : Char) : List Char → List (List Char)
  | [] => [[]]
  | x :: xs =>
    match splitCh sep xs with
    | [] => [[]]
    | g :: gs => if x = sep then [] :: g :: gs else (x :: g) :: gs

/-- Split a string on the dot character, as strings.Split(value, ".") does. -/
def goSplitDot (s : String) : List String :=
  (splitCh '.' s.data).map String.mk

/-- Model of strings.Join. -/
def goJoin (sep : String) : List String → String
  | [] => ""
  | [x] => x
  | x :: y :: xs => x ++ sep ++ goJoin sep (y :: xs)

/-- The ten decimal digit characters. -/
def decDigits : List Char := ['0','1','2','3','4','5','6','7','8','9']

/-- Decimal digit characters of a natural number, most significant first;
the digit-by-digit model of the integer formatting done by fmt.Sprintf. -/
def natToChars (n : Nat) : List Char :=
  if h : n < 10 then [decDigits.get ⟨n, by simp only [decDigits, List.length]; omega⟩]
  else natToChars (n / 10) ++
    [decDigits.get ⟨n % 10, by simp only [decDigits, List.length]; omega⟩]
decreasing_by exact Nat.div_lt_self (by omega) (by omega)

/-- Model of fmt.Sprintf with a %d verb on a Go int. -/
def goItoa (i : Int) : String :=
  if i < 0 then String.mk ('-' :: natToChars i.natAbs)
  else String.mk (natToChars i.toNat)

/-- Number of question-mark placeholder characters in a string. -/
def countQ (s : String) : Nat := s.data.count '?'

/-! ### The MySQL grammar (src/unnamed/part_001, hardened version) -/

/-- One character of the identifier pattern of validIdentifierPattern,
the regular expression accepting only runs of characters from the class
of ASCII letters, digits, underscore and dot. -/
def isIdentChar (c : Char) : Bool :=
  c.isAlpha || c.isDigit || c = '_' || c = '.'

/-- Model of validIdentifierPattern.MatchString: the whole string is a
non-empty run of identifier characters. -/
def validIdentifier (s : String) : Bool :=
  !s.data.isEmpty && s.data.all isIdentChar

/-- Validate one identifier piece and put backticks around it; a none
result models the panic raised for an invalid identifier. -/
def wrapPart (s : String) : Option String :=
  if validIdentifier s then some ("`" ++ s ++ "`") else none

/-- Run an option-valued function over a list, failing as soon as one
element fails; models a Go loop whose body can panic. -/
def mapOpt (f : α → Option β) : List α → Option (List β)
  | [] => some []
  | x :: xs =>
    match f x, mapOpt f xs with
    | some y, some ys => some (y :: ys)
    | _, _ => none

/-- MySQLGrammar.Wrap: the star is passed through verbatim, a dotted name
is split and each part validated and backtick-quoted, any other name is
validated and backtick-quoted; none models the panic on a failed
validation. -/
def Wrap (value : String) : Option String :=
  if value = "*" then some value
  else if value.data.contains '.' then
    match mapOpt wrapPart (goSplitDot value) with
    | some parts => some (goJoin "." parts)
    | none => none
  else wrapPart value

/-- The allowedOperators whitelist of the grammar, as in the source map. -/
def allowedOperators : List String :=
  ["=", "!=", "<>", "<", ">", "<=", ">=", "LIKE", "NOT LIKE", "IN",
   "NOT IN", "BETWEEN", "NOT BETWEEN", "IS", "IS NOT"]

/-- MySQLGrammar.validateOperator as a predicate: the operator, trimmed
and upper-cased, must be in the whitelist; false models the panic. -/
def validOperator (op : String) : Bool :=
  allowedOperators.contains (goToUpper (goTrim op))

/-- The operator token the grammar writes into the SQL text:
strings.ToUpper of the stored operator. -/
def emittedOperator (op : String) : String := goToUpper op

/-- WhereClause of the builder; the value stays opaque (type parameter). -/
structure WhereClause (α : Type) where
  Column : String
  Operator : String
  Value : α
  Boolean : String
deriving DecidableEq, Repr

/-- The two order directions of the hardened builder. -/
inductive OrderDirection where
  | Asc
  | Desc
deriving DecidableEq, Repr

/-- Modelled from the spec: the string rendering of an OrderDirection
(its type definition is not among the sources, only its uses; the spec
fixes the two literals ASC and DESC). -/
def dirStr : OrderDirection → String
  | OrderDirection.Asc => "ASC"
  | OrderDirection.Desc => "DESC"

/-- OrderClause of the hardened builder. -/
structure OrderClause where
  Column : String
  Direction : OrderDirection
deriving DecidableEq, Repr

/-- QueryBuilder state: executor and grammar handles stay opaque type
parameters, the remaining fields follow the Go struct. -/
structure QueryBuilder (ε γ α : Type) where
  executor : ε
  grammar : γ
  table : String
  columns : List String
  wheres : List (WhereClause α)
  orders : List OrderClause
  limit : Int
  offset : Int

/-- One WHERE condition as written into the SQL text by the compile
loops: optional boolean separator, wrapped column, upper-cased operator,
placeholder; none models a panic from validateOperator or Wrap. -/
def whereFrag (isFirst : Bool) (w : WhereClause α) : Option String :=
  if validOperator w.Operator then
    match Wrap w.Column with
    | some c =>
      some ((if isFirst then "" else " " ++ w.Boolean ++ " ") ++
            c ++ " " ++ emittedOperator w.Operator ++ " ?")
    | none => none
  else none

/-- The WHERE text of a clause list, as the compile loops build it. -/
def wheresSQL (isFirst : Bool) : List (WhereClause α) → Option String
  | [] => some ""
  | w :: ws =>
    match whereFrag isFirst w, wheresSQL false ws with
    | some s, some rest => some (s ++ rest)
    | _, _ => none

/-- One ORDER BY item: wrapped column and direction literal. -/
def orderFrag (o : OrderClause) : Option String :=
  match Wrap o.Column with
  | some c => some (c ++ " " ++ dirStr o.Direction)
  | none => none

/-- The optional WHERE tail a compile function appends to its base
clause when the clause list is non-empty. -/
def whereSuffix (base : String) (ws : List (WhereClause α)) : Option String :=
  if ws.isEmpty then some base
  else
    match wheresSQL true ws with
    | some x => some (base ++ " WHERE " ++ x)
    | none => none

/-- The optional ORDER BY tail of CompileSelect. -/
def orderSuffix (base : String) (os : List OrderClause) : Option String :=
  if os.isEmpty then some base
  else
    match mapOpt orderFrag os with
    | some items => some (base ++ " ORDER BY " ++ goJoin ", " items)
    | none => none

/-- The optional LIMIT tail of CompileSelect. -/
def limitSuffix (base : String) (l : Int) : String :=
  if l > 0 then base ++ " LIMIT " ++ goItoa l else base

/-- The optional OFFSET tail of CompileSelect. -/
def offsetSuffix (base : String) (o : Int) : String :=
  if o > 0 then base ++ " OFFSET " ++ goItoa o else base

/-- MySQLGrammar.CompileSelect on the builder state. -/
def CompileSelect (qb : QueryBuilder ε γ α) : Option (String × List α) :=
  match mapOpt Wrap qb.columns, Wrap qb.table with
  | some cols, some tbl =>
    match whereSuffix ("SELECT " ++ goJoin ", " cols ++ " FROM " ++ tbl)
            qb.wheres with
    | none => none
    | some s1 =>
      match orderSuffix s1 qb.orders with
      | none => none
      | some s2 =>
        some (offsetSuffix (limitSuffix s2 qb.limit) qb.offset,
              qb.wheres.map (fun w => w.Value))
  | _, _ => none

/-- MySQLGrammar.CompileInsert; the data map is taken in one fixed Go map
iteration order, as an association list. -/
def CompileInsert (tbl : String) (data : List (String × α)) :
    Option (String × List α) :=
  match mapOpt (fun kv => Wrap kv.1) data, Wrap tbl with
  | some cols, some t =>
    some ("INSERT INTO " ++ t ++ " (" ++ goJoin ", " cols ++ ") VALUES (" ++
          goJoin ", " (data.map (fun _ => "?")) ++ ")",
          data.map (fun kv => kv.2))
  | _, _ => none

/-- MySQLGrammar.CompileUpdate. -/
def CompileUpdate (tbl : String) (data : List (String × α))
    (wheres : List (WhereClause α)) : Option (String × List α) :=
  match mapOpt (fun kv => (Wrap kv.1).map (fun c => c ++ " = ?")) data,
        Wrap tbl with
  | some sets, some t =>
    match whereSuffix ("UPDATE " ++ t ++ " SET " ++ goJoin ", " sets) wheres with
    | some s => some (s, data.map (fun kv => kv.2) ++ wheres.map (fun w => w.Value))
    | none => none
  | _, _ => none

/-- MySQLGrammar.CompileDelete. -/
def CompileDelete (tbl : String) (wheres : List (WhereClause α)) :
    Option (String × List α) :=
  match Wrap tbl with
  | some t =>
    match whereSuffix ("DELETE FROM " ++ t) wheres with
    | some s => some (s, wheres.map (fun w => w.Value))
    | none => none
  | none => none

/-! ### Query builder operations (src/pkg/database/builder.go, hardened) -/

/-- NewBuilder: default columns, empty clause lists, zero limit and
offset; the table starts as the Go zero value. -/
def NewBuilder (e : ε) (g : γ) : QueryBuilder ε γ α :=
  ⟨e, g, "", ["*"], [], [], 0, 0⟩

/-- Table sets the table name. -/
def Table (qb : QueryBuilder ε γ α) (tableName : String) : QueryBuilder ε γ α :=
  { qb with table := tableName }

/-- Select replaces the column list. -/
def Select (qb : QueryBuilder ε γ α) (columns : List String) : QueryBuilder ε γ α :=
  { qb with columns := columns }

/-- Where appends an AND clause. -/
def Where (qb : QueryBuilder ε γ α) (column operator : String) (value : α) :
    QueryBuilder ε γ α :=
  { qb with wheres := qb.wheres ++ [⟨column, operator, value, "AND"⟩] }

/-- OrWhere appends an OR clause. -/
def OrWhere (qb : QueryBuilder ε γ α) (column operator : String) (value : α) :
    QueryBuilder ε γ α :=
  { qb with wheres := qb.wheres ++ [⟨column, operator, value, "OR"⟩] }

/-- OrderBy normalises the direction (trim, upper-case, whitelist with
ASC as the default) and appends an order clause. -/
def OrderBy (qb : QueryBuilder ε γ α) (column direction : String) :
    QueryBuilder ε γ α :=
  let dir := goToUpper (goTrim direction)
  let orderDir : OrderDirection :=
    if dir = "DESC" then OrderDirection.Desc
    else if dir = "ASC" then OrderDirection.Asc
    else OrderDirection.Asc
  { qb with orders := qb.orders ++ [⟨column, orderDir⟩] }

/-- Limit sets the row bound. -/
def Limit (qb : QueryBuilder ε γ α) (l : Int) : QueryBuilder ε γ α :=
  { qb with limit := l }

/-- Offset sets the skip count. -/
def Offset (qb : QueryBuilder ε γ α) (o : Int) : QueryBuilder ε γ α :=
  { qb with offset := o }

/-- ToSQL delegates to CompileSelect; the method body reads the receiver
and writes nothing, so its state-passing translation returns the receiver
unchanged next to the compile result. -/
def ToSQL (qb : QueryBuilder ε γ α) :
    QueryBuilder ε γ α × Option (String × List α) :=
  (qb, CompileSelect qb)

/-- Builder states reachable through the public builder operations. -/
inductive Reachable : QueryBuilder ε γ α → Prop
  | new (e : ε) (g : γ) : Reachable (NewBuilder e g)
  | table (qb : QueryBuilder ε γ α) (t : String) :
      Reachable qb → Reachable (Table qb t)
  | select (qb : QueryBuilder ε γ α) (cs : List String) :
      Reachable qb → Reachable (Select qb cs)
  | whereAnd (qb : QueryBuilder ε γ α) (c o : String) (v : α) :
      Reachable qb → Reachable (Where qb c o v)
  | whereOr (qb : QueryBuilder ε γ α) (c o : String) (v : α) :
      Reachable qb → Reachable (OrWhere qb c o v)
  | orderBy (qb : QueryBuilder ε γ α) (c d : String) :
      Reachable qb → Reachable (OrderBy qb c d)
  | limit (qb : QueryBuilder ε γ α) (l : Int) :
      Reachable qb → Reachable (Limit qb l)
  | offset (qb : QueryBuilder ε γ α) (o : Int) :
      Reachable qb → Reachable (Offset qb o)

/-- Every boolean connective of the clause list is AND or OR. -/
def BoolsOK (ws : List (WhereClause α)) : Prop :=
  ∀ w ∈ ws, w.Boolean = "AND" ∨ w.Boolean = "OR"

/-- Map a function over the opaque values of a clause list. -/
def mapWheres (f : α → β) (ws : List (WhereClause α)) : List (WhereClause β) :=
  ws.map (fun w => ⟨w.Column, w.Operator, f w.Value, w.Boolean⟩)

/-- Map a function over the opaque values of a builder state. -/
def mapVals (f : α → β) (qb : QueryBuilder ε γ α) : QueryBuilder ε γ β :=
  ⟨qb.executor, qb.grammar, qb.table, qb.columns, mapWheres f qb.wheres,
   qb.orders, qb.limit, qb.offset⟩

/-- Map a function over the opaque values of an insert or update data
list. -/
def mapData (f : α → β) (data : List (String × α)) : List (String × β) :=
  data.map (fun kv => (kv.1, f kv.2))

/-! ### Rate limiter (src/internal/middleware/rate_limit.go); real-valued
token arithmetic is modelled over the rationals, timestamps as rational
seconds. -/

/-- rateLimitBucket. -/
structure RateBucket where
  tokens : ℚ
  lastRefillTime : ℚ
deriving DecidableEq

/-- RateLimiter state: bucket table plus the configured parameters. -/
structure RateLimiter where
  buckets : List (String × RateBucket)
  maxRequests : ℤ
  windowInSeconds : ℤ
  refillRate : ℚ

/-- NewRateLimiter. -/
def NewRateLimiter (maxRequests windowInSeconds : ℤ) : RateLimiter :=
  ⟨[], maxRequests, windowInSeconds,
   (maxRequests : ℚ) / (windowInSeconds : ℚ)⟩

/-- Go float-to-int conversion: truncation toward zero, on rationals. -/
def goIntOfRat (q : ℚ) : ℤ := q.num.tdiv q.den

/-- Association-list lookup, the model of a Go map read. -/
def lookupKey (bs : List (String × β)) (key : String) : Option β :=
  (bs.find? (fun kb => kb.1 = key)).map (fun kb => kb.2)

/-- Association-list write, the model of a Go map assignment: replace
the entry for the key when present, append it otherwise. -/
def setKey : List (String × β) → String → β → List (String × β)
  | [], key, b => [(key, b)]
  | kb :: rest, key, b =>
    if kb.1 = key then (key, b) :: rest else kb :: setKey rest key b

/-- RateLimiter.refillTokens: add the tokens produced since the last
refill, cap at the capacity, stamp the refill time. -/
def refillTokens (rl : RateLimiter) (b : RateBucket) (now : ℚ) : RateBucket :=
  ⟨min (b.tokens + (now - b.lastRefillTime) * rl.refillRate)
       (rl.maxRequests : ℚ), now⟩

/-- RateLimiter.Allow under the limiter mutex: locate or create the
bucket, refill, then admit (spending one token) or reject with the
retry-after seconds computed by the source through a Go float-to-int
truncation. Returns the new state, the decision, the reported remaining
count and the retry-after seconds. -/
def Allow (rl : RateLimiter) (key : String) (now : ℚ) :
    RateLimiter × Bool × ℤ × ℤ :=
  let b0 : RateBucket :=
    match lookupKey rl.buckets key with
    | some b => b
    | none => ⟨(rl.maxRequests : ℚ), now⟩
  let b1 := refillTokens rl b0 now
  if 1 ≤ b1.tokens then
    let b2 : RateBucket := ⟨b1.tokens - 1, b1.lastRefillTime⟩
    ({ rl with buckets := setKey rl.buckets key b2 }, true, goIntOfRat b2.tokens, 0)
  else
    ({ rl with buckets := setKey rl.buckets key b1 }, false, 0,
     goIntOfRat (1 / rl.refillRate))

/-- One pass of the RateLimiter cleanup loop body: drop every bucket idle
for more than twice the window. -/
def cleanupPass (rl : RateLimiter) (now : ℚ) : RateLimiter :=
  { rl with buckets := rl.buckets.filter (fun kb =>
      if now - kb.2.lastRefillTime > 2 * (rl.windowInSeconds : ℚ) then false
      else true) }

/-! ### CSRF middleware (src/internal/middleware/csrf.go) -/

/-- CSRFToken. -/
structure CSRFToken where
  Value : String
  ExpiresAt : ℚ
deriving DecidableEq

/-- CSRFStore: session id to token map. -/
structure CSRFStore where
  tokens : List (String × CSRFToken)
deriving DecidableEq

/-- CSRFStore.GetToken: return the stored unexpired token, otherwise
store and return a fresh one expiring two hours from now; the fresh
random token value is passed in as a parameter. -/
def GetToken (cs : CSRFStore) (sessionID : String) (now : ℚ)
    (freshValue : String) : CSRFStore × String :=
  match lookupKey cs.tokens sessionID with
  | some t =>
    if now < t.ExpiresAt then (cs, t.Value)
    else (⟨setKey (cs.tokens.filter (fun kv => !(kv.1 = sessionID)))
             sessionID ⟨freshValue, now + 7200⟩⟩, freshValue)
  | none =>
    (⟨setKey cs.tokens sessionID ⟨freshValue, now + 7200⟩⟩, freshValue)

/-- CSRFStore.ValidateToken: false on a missing entry, an expired entry,
or a value mismatch (the constant-time compare decides equality). -/
def ValidateToken (cs : CSRFStore) (sessionID token : String) (now : ℚ) : Bool :=
  match lookupKey cs.tokens sessionID with
  | none => false
  | some t => if t.ExpiresAt < now then false else t.Value = token

/-- An incoming request as the CSRF middleware sees it; empty strings
model absent header, form field, query parameter or session cookie. -/
structure CSRFRequest where
  method : String
  headerToken : String
  formToken : String
  queryToken : String
  sessionCookie : String
deriving DecidableEq

/-- The submitted token: header first, then form field, then query
parameter. -/
def extractToken (r : CSRFRequest) : String :=
  if r.headerToken ≠ "" then r.headerToken
  else if r.formToken ≠ "" then r.formToken
  else r.queryToken

/-- Outcome of the middleware: pass the request on, or reject with 403. -/
inductive CSRFOutcome where
  | pass
  | forbidden
deriving DecidableEq

/-- The session id the middleware works with: the cookie when present,
otherwise a freshly synthesised random id. -/
def csrfSession (r : CSRFRequest) (freshSession : String) : String :=
  if r.sessionCookie = "" then freshSession else r.sessionCookie

/-- CSRFProtection middleware body: ensure a session id (synthesised from
a fresh random value when the cookie is absent), issue a token, bypass
validation for GET, HEAD and OPTIONS, and otherwise require a non-empty
submitted token that validates against the store. -/
def CSRFProtection (cs : CSRFStore) (r : CSRFRequest) (now : ℚ)
    (freshToken freshSession : String) : CSRFStore × CSRFOutcome :=
  if r.method = "GET" ∨ r.method = "HEAD" ∨ r.method = "OPTIONS" then
    ((GetToken cs (csrfSession r freshSession) now freshToken).1,
     CSRFOutcome.pass)
  else if extractToken r = "" ∨
      ¬ ValidateToken (GetToken cs (csrfSession r freshSession) now freshToken).1
          (csrfSession r freshSession) (extractToken r) now then
    ((GetToken cs (csrfSession r freshSession) now freshToken).1,
     CSRFOutcome.forbidden)
  else
    ((GetToken cs (csrfSession r freshSession) now freshToken).1,
     CSRFOutcome.pass)

/-! ### Router (src/internal/router/router.go) -/

/-- Trie node; the handler type stays opaque. -/
inductive RNode (η : Type) where
  | mk (pathPart : String) (isParam : Bool) (handler : Option η)
       (children : List (String × RNode η)) (paramChild : Option (RNode η))

/-- The stored path segment of a node. -/
def RNode.pathPart : RNode η → String
  | RNode.mk p _ _ _ _ => p

/-- The handler installed at a node, when any. -/
def RNode.handler : RNode η → Option η
  | RNode.mk _ _ h _ _ => h

/-- The static children map of a node. -/
def RNode.children : RNode η → List (String × RNode η)
  | RNode.mk _ _ _ c _ => c

/-- The single parameter child of a node, when any. -/
def RNode.paramChild : RNode η → Option (RNode η)
  | RNode.mk _ _ _ _ p => p

/-- splitPath: split on the slash and discard empty segments. -/
def splitPath (path : String) : List String :=
  ((splitCh '/' path.data).map String.mk).filter (fun p => p ≠ "")

/-- Is the segment a parameter segment, surrounded by braces. -/
def isParamSeg (s : String) : Bool :=
  match s.data with
  | [] => false
  | c :: cs => c = '{' && (List.getLast (c :: cs) (by simp)) = '}'

/-- The bracket-stripped parameter name taken from a parameter node. -/
def stripBraces (s : String) : String :=
  String.mk ((s.data.drop 1).dropLast)

/-- Static-child lookup, the model of the Go map read in ServeHTTP. -/
def findChild (children : List (String × RNode η)) (seg : String) :
    Option (RNode η) :=
  (children.find? (fun kb => kb.1 = seg)).map (fun kb => kb.2)

/-- Write into the per-request parameter map. -/
def paramInsert (ps : List (String × String)) (k v : String) :
    List (String × String) :=
  setKey ps k v

/-- The dispatch walk of ServeHTTP: for each segment prefer the static
child, fall back to the parameter child binding the stripped name, and
fail (404) when neither exists. -/
def walkNode (n : RNode η) : List String → List (String × String) →
    Option (RNode η × List (String × String))
  | [], ps => some (n, ps)
  | seg :: rest, ps =>
    match findChild n.children seg with
    | some c => walkNode c rest ps
    | none =>
      match n.paramChild with
      | some pc =>
          walkNode pc rest (paramInsert ps (stripBraces pc.pathPart) seg)
      | none => none

/-- Full dispatch on one method tree: a missing node or a terminal node
without a handler is a 404 (none). -/
def dispatchTree (root : RNode η) (path : String) :
    Option (η × List (String × String)) :=
  match walkNode root (splitPath path) [] with
  | none => none
  | some (t, ps) =>
    match t.handler with
    | none => none
    | some h => some (h, ps)

/-- Insert a handler along a path during registration
(Router.HandleWithGroup), creating static or parameter children as the
segments dictate. -/
def insertPath (n : RNode η) (h : η) : List String → RNode η
  | [] => RNode.mk n.pathPart (isParamSeg n.pathPart) (some h) n.children n.paramChild
  | seg :: rest =>
    if isParamSeg seg then
      let child :=
        match n.paramChild with
        | some pc => pc
        | none => RNode.mk seg true none [] none
      RNode.mk n.pathPart (isParamSeg n.pathPart) n.handler n.children
        (some (insertPath child h rest))
    else
      let child :=
        match findChild n.children seg with
        | some c => c
        | none => RNode.mk seg false none [] none
      RNode.mk n.pathPart (isParamSeg n.pathPart) n.handler
        (setKey n.children seg (insertPath child h rest)) n.paramChild

/-- The empty method tree root created on first registration. -/
def rootNode : RNode η := RNode.mk "/" false none [] none

/-! ### Scanner-cache reaper -/

/-- Modelled from the spec: the scanner module handle returned by
init(interval, idle_max); the stoppable InitScanner implementation is
absent from the sources (only its caller in the shutdown step remains),
so the handle carries the two configured durations. -/
structure ReaperHandle where
  interval : ℚ
  idleMax : ℚ

/-- Modelled from the spec: scanner init(interval, idle_max). -/
def InitScanner (interval idleMax : ℚ) : ReaperHandle :=
  ⟨interval, idleMax⟩

/-- Reaper loop state: the stop flag raised by handle.stop() through the
cancellation channel, and the cache entries with their last-access
times. -/
structure ReaperState where
  stopped : Bool
  cache : List (String × ℚ)
deriving DecidableEq

/-- Events the reaper loop can receive: a ticker tick carrying the
current time, or the stop signal on the cancellation channel. -/
inductive ReaperEvent where
  | tick (now : ℚ)
  | stop
deriving DecidableEq

/-- Modelled from the spec: one iteration of the stoppable reaper loop.
A stop signal terminates the loop (records the stopped flag); a tick on
a live loop evicts every entry idle longer than the idle threshold; a
stopped loop processes nothing further. -/
def reaperStep (h : ReaperHandle) (st : ReaperState) :
    ReaperEvent → ReaperState
  | ReaperEvent.stop => ⟨true, st.cache⟩
  | ReaperEvent.tick now =>
    if st.stopped then st
    else ⟨false, st.cache.filter (fun e =>
      if now - e.2 > h.idleMax then false else true)⟩

/-- Run the reaper loop over a sequence of events. -/
def reaperRun (h : ReaperHandle) (st : ReaperState) :
    List ReaperEvent → ReaperState
  | [] => st
  | e :: es => reaperRun h (reaperStep h st e) es

/-! ### Concrete inputs used by the witnesses -/

/-- A small reachable builder state: table users, one WHERE clause. -/
def qbW : QueryBuilder Unit Unit Nat :=
  Where (Table (NewBuilder () ()) "users") "id" "=" 42

/-- A parameter trie node for the segment between braces named id. -/
def paramNodeW : RNode String := RNode.mk "{id}" true (some "userShow") [] none

/-- A static trie node for the segment users with one parameter child. -/
def usersNodeW : RNode String :=
  RNode.mk "users" false none [] (some paramNodeW)

/-- A rate limiter with capacity 3 over a 10 second window, as in the
rate-limit trip scenario of the specification. -/
def rlW : RateLimiter := NewRateLimiter 3 10

/-- The limiter state after one admission for key k at time zero. -/
def rlW1 : RateLimiter := ⟨[("k", ⟨2, 0⟩)], 3, 10, (3 : ℚ) / 10⟩

/-- The limiter state after two admissions for key k at time zero. -/
def rlW2 : RateLimiter := ⟨[("k", ⟨1, 0⟩)], 3, 10, (3 : ℚ) / 10⟩

/-- The limiter state after three admissions for key k at time zero:
the bucket for k is empty. -/
def rlW3 : RateLimiter := ⟨[("k", ⟨0, 0⟩)], 3, 10, (3 : ℚ) / 10⟩

/-- The bucket created for an unseen key by rlW at time zero. -/
def b0W : RateBucket := ⟨((3 : ℤ) : ℚ), 0⟩

/-- The refilled token count of that bucket at time zero. -/
def t1W : ℚ :=
  min (b0W.tokens + (0 - b0W.lastRefillTime) * rlW.refillRate)
      ((rlW.maxRequests : ℚ))

/-! ### Helper lemmas: placeholder counting -/

theorem countQ_append (a b : String) : countQ (a ++ b) = countQ a + countQ b := by
  simp [countQ, String.data_append, List.count_append]

theorem countQ_mk (l : List Char) : countQ (String.mk l) = l.count '?' := rfl

theorem charUp_eq_q (c : Char) : charUp c = '?' ↔ c = '?' := by
  constructor
  · intro h
    unfold charUp at h
    rcases hf : lowerUpperTable.find? (fun p => p.1 = c) with _ | p
    · rw [hf] at h; exact h
    · rw [hf] at h
      have hp := List.mem_of_find?_eq_some hf
      have hne : ∀ q ∈ lowerUpperTable, q.2 ≠ '?' := by decide
      exact absurd h (hne p hp)
  · intro h; subst h; decide

theorem count_map_charUp (l : List Char) :
    (l.map charUp).count '?' = l.count '?' := by
  induction l with
  | nil => rfl
  | cons c cs ih =>
    simp only [List.map_cons, List.count_cons, ih, beq_iff_eq]
    by_cases h : c = '?'
    · subst h
      rw [if_pos ((charUp_eq_q '?').mpr rfl), if_pos rfl]
    · rw [if_neg h, if_neg (fun hc => h ((charUp_eq_q c).mp hc))]

theorem countQ_goToUpper (s : String) : countQ (goToUpper s) = countQ s := by
  simp [goToUpper, countQ_mk, count_map_charUp]; rfl

theorem count_dropWhile_ws (l : List Char) :
    (l.dropWhile isWs).count '?' = l.count '?' := by
  induction l with
  | nil => rfl
  | cons c cs ih =>
    by_cases h : isWs c
    · rw [List.dropWhile_cons_of_pos h, ih, List.count_cons]
      have : ¬ c = '?' := by
        intro hc; subst hc; revert h; decide
      simp [this]
    · rw [List.dropWhile_cons_of_neg h]

theorem countQ_goTrim (s : String) : countQ (goTrim s) = countQ s := by
  simp only [goTrim, countQ_mk, countQ]
  rw [List.count_reverse, count_dropWhile_ws, List.count_reverse,
      count_dropWhile_ws]

theorem countQ_validOperator {op : String} (h : validOperator op) :
    countQ (emittedOperator op) = 0 := by
  have h1 : countQ (goToUpper (goTrim op)) = 0 := by
    have hmem : goToUpper (goTrim op) ∈ allowedOperators := by
      simpa [validOperator] using h
    have hz : ∀ x ∈ allowedOperators, countQ x = 0 := by decide
    exact hz _ hmem
  rw [countQ_goToUpper, countQ_goTrim] at h1
  rw [emittedOperator, countQ_goToUpper]
  exact h1

theorem countQ_validIdentifier {s : String} (h : validIdentifier s) :
    countQ s = 0 := by
  have hall := (Bool.and_eq_true _ _).mp h |>.2
  simp only [countQ]
  rw [List.count_eq_zero]
  intro hq
  have := (List.all_eq_true.mp hall) '?' hq
  exact absurd this (by decide)

theorem countQ_wrapPart {s w : String} (h : wrapPart s = some w) :
    countQ w = 0 := by
  unfold wrapPart at h
  split at h
  · rename_i hv
    cases h
    rw [countQ_append, countQ_append, countQ_validIdentifier hv]
    decide
  · cases h

theorem mapOpt_forall {f : α → Option β} :
    ∀ {xs : List α} {ys : List β}, mapOpt f xs = some ys →
      ∀ y ∈ ys, ∃ x ∈ xs, f x = some y := by
  intro xs
  induction xs with
  | nil => intro ys h y hy; cases h; cases hy
  | cons x xs ih =>
    intro ys h y hy
    unfold mapOpt at h
    rcases hfx : f x with _ | z <;> rw [hfx] at h
    · cases h
    · rcases hrest : mapOpt f xs with _ | zs <;> rw [hrest] at h
      · cases h
      · cases h
        rcases List.mem_cons.mp hy with h1 | h2
        · exact ⟨x, List.mem_cons_self x xs, h1 ▸ hfx⟩
        · obtain ⟨x2, hx2, hfx2⟩ := ih hrest y h2
          exact ⟨x2, List.mem_cons_of_mem x hx2, hfx2⟩

theorem countQ_goJoin {sep : String} (hsep : countQ sep = 0) :
    ∀ {xs : List String}, (∀ x ∈ xs, countQ x = 0) → countQ (goJoin sep xs) = 0 := by
  intro xs
  induction xs with
  | nil => intro _; rfl
  | cons x xs ih =>
    intro hall
    cases xs with
    | nil => exact hall x (List.mem_singleton.mpr rfl)
    | cons y ys =>
      show countQ (x ++ sep ++ goJoin sep (y :: ys)) = 0
      rw [countQ_append, countQ_append,
          hall x (List.mem_cons_self _ _), hsep,
          ih (fun z hz => hall z (List.mem_cons_of_mem x hz))]

theorem countQ_Wrap {v w : String} (h : Wrap v = some w) : countQ w = 0 := by
  unfold Wrap at h
  split at h
  · rename_i hstar
    cases h
    subst hstar
    decide
  · split at h
    · rcases hm : mapOpt wrapPart (goSplitDot v) with _ | parts <;> rw [hm] at h
      · cases h
      · cases h
        refine countQ_goJoin (by decide) ?_
        intro x hx
        obtain ⟨p, _, hp⟩ := mapOpt_forall hm x hx
        exact countQ_wrapPart hp
    · exact countQ_wrapPart h

theorem natToChars_mem (n : Nat) : ∀ c ∈ natToChars n, c ∈ decDigits := by
  induction n using Nat.strong_induction_on with
  | _ n ih =>
    intro c hc
    rw [natToChars] at hc
    split at hc
    · rcases List.mem_singleton.mp hc with h
      exact h ▸ List.get_mem _ _ _
    · rcases List.mem_append.mp hc with h1 | h2
      · exact ih (n / 10) (Nat.div_lt_self (by omega) (by omega)) c h1
      · exact (List.mem_singleton.mp h2) ▸ List.get_mem _ _ _

theorem countQ_goItoa (i : Int) : countQ (goItoa i) = 0 := by
  have hdig : ∀ n : Nat, (natToChars n).count '?' = 0 := by
    intro n
    rw [List.count_eq_zero]
    intro hq
    have := natToChars_mem n '?' hq
    revert this
    decide
  unfold goItoa
  split
  · rw [countQ_mk, List.count_cons]
    simp [hdig]
  · rw [countQ_mk, hdig]

theorem countQ_whereFrag {w : WhereClause α} {isFirst : Bool} {s : String}
    (hb : w.Boolean = "AND" ∨ w.Boolean = "OR")
    (h : whereFrag isFirst w = some s) : countQ s = 1 := by
  unfold whereFrag at h
  split at h
  · rename_i hop
    rcases hw : Wrap w.Column with _ | c <;> rw [hw] at h
    · cases h
    · cases h
      have hsep : countQ (if isFirst = true then "" else " " ++ w.Boolean ++ " ") = 0 := by
        cases isFirst with
        | true => rfl
        | false =>
          rw [if_neg (by decide)]
          rw [countQ_append, countQ_append]
          rcases hb with hb | hb <;> rw [hb] <;> decide
      simp only [countQ_append]
      rw [countQ_Wrap hw, countQ_validOperator hop, hsep]
      decide
  · cases h

theorem countQ_wheresSQL {ws : List (WhereClause α)} :
    ∀ {isFirst : Bool} {s : String}, BoolsOK ws → wheresSQL isFirst ws = some s →
      countQ s = ws.length := by
  induction ws with
  | nil =>
    intro isFirst s _ h
    cases h
    rfl
  | cons w ws ih =>
    intro isFirst s hb h
    unfold wheresSQL at h
    rcases hf : whereFrag isFirst w with _ | sf <;> rw [hf] at h
    · cases h
    · rcases hr : wheresSQL false ws with _ | sr <;> rw [hr] at h
      · cases h
      · cases h
        rw [countQ_append,
            countQ_whereFrag (hb w (List.mem_cons_self _ _)) hf,
            ih (fun x hx => hb x (List.mem_cons_of_mem w hx)) hr,
            List.length_cons]
        omega

theorem countQ_whereSuffix {ws : List (WhereClause α)} {base s : String}
    (hb : BoolsOK ws) (h : whereSuffix base ws = some s) :
    countQ s = countQ base + ws.length := by
  unfold whereSuffix at h
  split at h
  · rename_i he
    cases h
    rw [List.isEmpty_iff.mp he]
    rfl
  · rcases hws : wheresSQL true ws with _ | x <;> rw [hws] at h
    · cases h
    · cases h
      rw [countQ_append, countQ_append, countQ_wheresSQL hb hws]
      have : countQ " WHERE " = 0 := by decide
      omega

theorem countQ_orderFrag {o : OrderClause} {s : String}
    (h : orderFrag o = some s) : countQ s = 0 := by
  unfold orderFrag at h
  rcases hw : Wrap o.Column with _ | c <;> rw [hw] at h
  · cases h
  · cases h
    rw [countQ_append, countQ_append, countQ_Wrap hw]
    rcases o.Direction <;> decide

theorem countQ_orderSuffix {os : List OrderClause} {base s : String}
    (h : orderSuffix base os = some s) : countQ s = countQ base := by
  unfold orderSuffix at h
  split at h
  · cases h; rfl
  · rcases hm : mapOpt orderFrag os with _ | items <;> rw [hm] at h
    · cases h
    · cases h
      rw [countQ_append, countQ_append]
      rw [countQ_goJoin (by decide)
            (fun x hx => by
              obtain ⟨o, _, ho⟩ := mapOpt_forall hm x hx
              exact countQ_orderFrag ho)]
      have : countQ " ORDER BY " = 0 := by decide
      omega

theorem countQ_limitSuffix (base : String) (l : Int) :
    countQ (limitSuffix base l) = countQ base := by
  unfold limitSuffix
  split
  · rw [countQ_append, countQ_append, countQ_goItoa]
    have : countQ " LIMIT " = 0 := by decide
    omega
  · rfl

theorem countQ_offsetSuffix (base : String) (o : Int) :
    countQ (offsetSuffix base o) = countQ base := by
  unfold offsetSuffix
  split
  · rw [countQ_append, countQ_append, countQ_goItoa]
    have : countQ " OFFSET " = 0 := by decide
    omega
  · rfl

theorem countQ_selectBase {cs : List String} {cols : List String}
    {t tbl : String} (hcols : mapOpt Wrap cs = some cols)
    (htbl : Wrap t = some tbl) :
    countQ ("SELECT " ++ goJoin ", " cols ++ " FROM " ++ tbl) = 0 := by
  rw [countQ_append, countQ_append, countQ_append, countQ_Wrap htbl]
  rw [countQ_goJoin (by decide)
        (fun x hx => by
          obtain ⟨c, _, hc⟩ := mapOpt_forall hcols x hx
          exact countQ_Wrap hc)]
  decide

theorem compileSelect_spec {qb : QueryBuilder ε γ α} {sql : String}
    {args : List α} (hb : BoolsOK qb.wheres)
    (h : CompileSelect qb = some (sql, args)) :
    countQ sql = args.length ∧ args = qb.wheres.map (fun w => w.Value) := by
  unfold CompileSelect at h
  split at h
  · rename_i cols tbl hcols htbl
    split at h
    · cases h
    · rename_i s1 hw
      split at h
      · cases h
      · rename_i s2 ho
        cases h
        refine ⟨?_, rfl⟩
        rw [countQ_offsetSuffix, countQ_limitSuffix, countQ_orderSuffix ho,
            countQ_whereSuffix hb hw, countQ_selectBase hcols htbl,
            List.length_map]
        omega
  · cases h

theorem mapOpt_length {f : α → Option β} :
    ∀ {xs : List α} {ys : List β}, mapOpt f xs = some ys →
      ys.length = xs.length := by
  intro xs
  induction xs with
  | nil => intro ys h; cases h; rfl
  | cons x xs ih =>
    intro ys h
    unfold mapOpt at h
    rcases hfx : f x with _ | z <;> rw [hfx] at h
    · cases h
    · rcases hrest : mapOpt f xs with _ | zs <;> rw [hrest] at h
      · cases h
      · cases h
        simp [ih hrest]

theorem countQ_goJoin_ones {sep : String} (hsep : countQ sep = 0) :
    ∀ {xs : List String}, (∀ x ∈ xs, countQ x = 1) →
      countQ (goJoin sep xs) = xs.length := by
  intro xs
  induction xs with
  | nil => intro _; rfl
  | cons x xs ih =>
    intro hall
    cases xs with
    | nil =>
      show countQ x = [x].length
      rw [hall x (List.mem_singleton.mpr rfl)]
      rfl
    | cons y ys =>
      show countQ (x ++ sep ++ goJoin sep (y :: ys)) = (x :: y :: ys).length
      rw [countQ_append, countQ_append, hsep,
          hall x (List.mem_cons_self _ _),
          ih (fun z hz => hall z (List.mem_cons_of_mem x hz))]
      simp
      omega

theorem compileInsert_spec {tbl : String} {data : List (String × α)}
    {sql : String} {args : List α}
    (h : CompileInsert tbl data = some (sql, args)) :
    countQ sql = args.length ∧ args = data.map (fun kv => kv.2) := by
  unfold CompileInsert at h
  split at h
  · rename_i cols t hcols ht
    cases h
    refine ⟨?_, rfl⟩
    simp only [countQ_append]
    rw [countQ_Wrap ht,
        countQ_goJoin (by decide)
          (fun x hx => by
            obtain ⟨kv, _, hkv⟩ := mapOpt_forall hcols x hx
            exact countQ_Wrap hkv),
        countQ_goJoin_ones (by decide)
          (fun x hx => by
            obtain ⟨kv, _, hkv⟩ := List.mem_map.mp hx
            rw [← hkv]
            rfl)]
    have h1 : countQ "INSERT INTO " = 0 := by decide
    have h2 : countQ " (" = 0 := by decide
    have h3 : countQ ") VALUES (" = 0 := by decide
    have h4 : countQ ")" = 0 := by decide
    simp [h1, h2, h3, h4]
  · cases h

theorem compileUpdate_spec {tbl : String} {data : List (String × α)}
    {wheres : List (WhereClause α)} {sql : String} {args : List α}
    (hb : BoolsOK wheres) (h : CompileUpdate tbl data wheres = some (sql, args)) :
    countQ sql = args.length ∧
      args = data.map (fun kv => kv.2) ++ wheres.map (fun w => w.Value) := by
  unfold CompileUpdate at h
  split at h
  · rename_i sets t hsets ht
    split at h
    · rename_i s hw
      cases h
      refine ⟨?_, rfl⟩
      rw [countQ_whereSuffix hb hw]
      simp only [countQ_append]
      rw [countQ_Wrap ht,
          countQ_goJoin_ones (by decide)
            (fun x hx => by
              obtain ⟨kv, _, hkv⟩ := mapOpt_forall hsets x hx
              rcases hwc : Wrap kv.1 with _ | c <;> rw [hwc] at hkv
              · cases hkv
              · cases hkv
                rw [countQ_append, countQ_Wrap hwc]
                decide),
          mapOpt_length hsets]
      have h1 : countQ "UPDATE " = 0 := by decide
      have h2 : countQ " SET " = 0 := by decide
      simp [h1, h2]
    · cases h
  · cases h

theorem compileDelete_spec {tbl : String} {wheres : List (WhereClause α)}
    {sql : String} {args : List α}
    (hb : BoolsOK wheres) (h : CompileDelete tbl wheres = some (sql, args)) :
    countQ sql = args.length ∧ args = wheres.map (fun w => w.Value) := by
  unfold CompileDelete at h
  split at h
  · rename_i t ht
    split at h
    · rename_i s hw
      cases h
      refine ⟨?_, rfl⟩
      rw [countQ_whereSuffix hb hw, countQ_append, countQ_Wrap ht]
      have h1 : countQ "DELETE FROM " = 0 := by decide
      simp [h1]
    · cases h
  · cases h

theorem wheresSQL_mapWheres (f : α → β) (ws : List (WhereClause α)) :
    ∀ isFirst, wheresSQL isFirst (mapWheres f ws) = wheresSQL isFirst ws := by
  induction ws with
  | nil => intro _; rfl
  | cons w ws ih =>
    intro isFirst
    show wheresSQL isFirst (⟨w.Column, w.Operator, f w.Value, w.Boolean⟩ ::
          mapWheres f ws) = _
    unfold wheresSQL
    rw [ih false]
    rfl

theorem whereSuffix_mapWheres (f : α → β) (base : String)
    (ws : List (WhereClause α)) :
    whereSuffix base (mapWheres f ws) = whereSuffix base ws := by
  cases ws with
  | nil => rfl
  | cons w ws =>
    unfold whereSuffix
    rw [wheresSQL_mapWheres]
    rfl

theorem mapWheres_values (f : α → β) (ws : List (WhereClause α)) :
    (mapWheres f ws).map (fun w => w.Value) =
      (ws.map (fun w => w.Value)).map f := by
  simp only [mapWheres, List.map_map]
  rfl

theorem compileSelect_mapVals (f : α → β) (qb : QueryBuilder ε γ α) :
    CompileSelect (mapVals f qb) =
      (CompileSelect qb).map (fun p => (p.1, p.2.map f)) := by
  obtain ⟨e, g, t, cs, ws, os, l, o⟩ := qb
  unfold CompileSelect mapVals
  simp only []
  rcases hc : mapOpt Wrap cs with _ | cols <;>
    rcases ht : Wrap t with _ | tbl <;>
      simp only [hc, ht, whereSuffix_mapWheres] <;> try rfl
  rcases hw : whereSuffix ("SELECT " ++ goJoin ", " cols ++ " FROM " ++ tbl) ws
      with _ | s1 <;> simp only [hw] <;> try rfl
  rcases ho : orderSuffix s1 os with _ | s2 <;> simp only [ho] <;> try rfl
  rw [mapWheres_values]
  rfl

theorem mapData_keys (f : α → β) (data : List (String × α)) :
    mapOpt (fun kv => Wrap kv.1) (mapData f data) =
      mapOpt (fun kv => Wrap kv.1) data := by
  induction data with
  | nil => rfl
  | cons kv rest ih =>
    show mapOpt _ ((kv.1, f kv.2) :: mapData f rest) = _
    unfold mapOpt
    rw [ih]

theorem mapData_values (f : α → β) (data : List (String × α)) :
    (mapData f data).map (fun kv => kv.2) =
      (data.map (fun kv => kv.2)).map f := by
  simp [mapData, List.map_map]

theorem compileInsert_mapVals (f : α → β) (tbl : String)
    (data : List (String × α)) :
    CompileInsert tbl (mapData f data) =
      (CompileInsert tbl data).map (fun p => (p.1, p.2.map f)) := by
  unfold CompileInsert
  rw [mapData_keys]
  have hph : (mapData f data).map (fun _ => "?") = data.map (fun _ => "?") := by
    simp only [mapData, List.map_map]
    rfl
  rw [hph]
  rcases hc : mapOpt (fun kv => Wrap kv.1) data with _ | cols <;>
    rcases ht : Wrap tbl with _ | t <;>
      simp only [hc, ht] <;> try rfl
  rw [mapData_values]
  rfl

theorem mapData_sets (f : α → β) (data : List (String × α)) :
    mapOpt (fun kv => (Wrap kv.1).map (fun c => c ++ " = ?")) (mapData f data) =
      mapOpt (fun kv => (Wrap kv.1).map (fun c => c ++ " = ?")) data := by
  induction data with
  | nil => rfl
  | cons kv rest ih =>
    show mapOpt _ ((kv.1, f kv.2) :: mapData f rest) = _
    unfold mapOpt
    rw [ih]

theorem compileUpdate_mapVals (f : α → β) (tbl : String)
    (data : List (String × α)) (ws : List (WhereClause α)) :
    CompileUpdate tbl (mapData f data) (mapWheres f ws) =
      (CompileUpdate tbl data ws).map (fun p => (p.1, p.2.map f)) := by
  unfold CompileUpdate
  rw [mapData_sets]
  rcases hc : mapOpt (fun kv => (Wrap kv.1).map (fun c => c ++ " = ?")) data
      with _ | sets <;>
    rcases ht : Wrap tbl with _ | t <;>
      simp only [hc, ht, whereSuffix_mapWheres] <;> try rfl
  rcases hw : whereSuffix ("UPDATE " ++ t ++ " SET " ++ goJoin ", " sets) ws
      with _ | s <;> simp only [hw] <;> try rfl
  rw [mapData_values, mapWheres_values]
  simp

theorem compileDelete_mapVals (f : α → β) (tbl : String)
    (ws : List (WhereClause α)) :
    CompileDelete tbl (mapWheres f ws) =
      (CompileDelete tbl ws).map (fun p => (p.1, p.2.map f)) := by
  unfold CompileDelete
  rcases ht : Wrap tbl with _ | t <;>
    simp only [ht, whereSuffix_mapWheres] <;> try rfl
  rcases hw : whereSuffix ("DELETE FROM " ++ t) ws
      with _ | s <;> simp only [hw] <;> try rfl
  rw [mapWheres_values]
  rfl

theorem reachable_boolsOK {qb : QueryBuilder ε γ α} (h : Reachable qb) :
    BoolsOK qb.wheres := by
  induction h with
  | new e g => intro w hw; cases hw
  | table qb t _ ih => exact ih
  | select qb cs _ ih => exact ih
  | whereAnd qb c o v _ ih =>
    intro w hw
    rcases List.mem_append.mp hw with h1 | h2
    · exact ih w h1
    · rw [List.mem_singleton.mp h2]
      exact Or.inl rfl
  | whereOr qb c o v _ ih =>
    intro w hw
    rcases List.mem_append.mp hw with h1 | h2
    · exact ih w h1
    · rw [List.mem_singleton.mp h2]
      exact Or.inr rfl
  | orderBy qb c d _ ih => exact ih
  | limit qb l _ ih => exact ih
  | offset qb o _ ih => exact ih

theorem mapOpt_map {f : α → Option β} {g : α → β} :
    ∀ {xs : List α}, (∀ x ∈ xs, f x = some (g x)) →
      mapOpt f xs = some (xs.map g) := by
  intro xs
  induction xs with
  | nil => intro _; rfl
  | cons x xs ih =>
    intro hall
    unfold mapOpt
    rw [hall x (List.mem_cons_self _ _),
        ih (fun z hz => hall z (List.mem_cons_of_mem x hz))]
    rfl

theorem mapOpt_none {f : α → Option β} :
    ∀ {xs : List α}, (∃ x ∈ xs, f x = none) → mapOpt f xs = none := by
  intro xs
  induction xs with
  | nil => intro ⟨x, hx, _⟩; cases hx
  | cons x xs ih =>
    intro ⟨z, hz, hfz⟩
    unfold mapOpt
    rcases List.mem_cons.mp hz with h1 | h2
    · subst h1
      rw [hfz]
    · rw [ih ⟨z, h2, hfz⟩]
      rcases f x with _ | y <;> rfl

theorem charUp_idem (c : Char) : charUp (charUp c) = charUp c := by
  rcases hf : lowerUpperTable.find? (fun p => p.1 = c) with _ | p
  · have hcc : charUp c = c := by unfold charUp; rw [hf]
    rw [hcc]
    exact hcc
  · have hcp : charUp c = p.2 := by unfold charUp; rw [hf]
    have hupper : ∀ q ∈ lowerUpperTable, charUp q.2 = q.2 := by decide
    rw [hcp]
    exact hupper p (List.mem_of_find?_eq_some hf)

theorem map_charUp_idem (l : List Char) :
    (l.map charUp).map charUp = l.map charUp := by
  induction l with
  | nil => rfl
  | cons c cs ih => simp [charUp_idem, ih]

theorem goToUpper_idem (s : String) : goToUpper (goToUpper s) = goToUpper s := by
  show String.mk ((s.data.map charUp).map charUp) = String.mk (s.data.map charUp)
  rw [map_charUp_idem]

/-- C1: for every builder state reachable through the builder operations
the stored boolean connectives are AND or OR, and for every call of the
MySQL grammar functions CompileSelect, CompileInsert, CompileUpdate and
CompileDelete that returns, the number of question-mark placeholders in
the returned SQL equals the length of the returned argument list, the
arguments are exactly the WHERE, INSERT and UPDATE SET values in emission
order, and replacing every argument value leaves the SQL text unchanged,
so no argument value is ever stringified into the SQL. -/
theorem c1_placeholders_match_args :
    (∀ (ε γ α : Type) (qb : QueryBuilder ε γ α),
      Reachable qb → BoolsOK qb.wheres) ∧
    (∀ (ε γ α β : Type) (f : α → β) (qb : QueryBuilder ε γ α),
      BoolsOK qb.wheres → ∀ sql args, CompileSelect qb = some (sql, args) →
        countQ sql = args.length ∧
        args = qb.wheres.map (fun w => w.Value) ∧
        CompileSelect (mapVals f qb) = some (sql, args.map f)) ∧
    (∀ (α β : Type) (f : α → β) (tbl : String) (data : List (String × α)),
      ∀ sql args, CompileInsert tbl data = some (sql, args) →
        countQ sql = args.length ∧
        args = data.map (fun kv => kv.2) ∧
        CompileInsert tbl (mapData f data) = some (sql, args.map f)) ∧
    (∀ (α β : Type) (f : α → β) (tbl : String) (data : List (String × α))
      (ws : List (WhereClause α)),
      BoolsOK ws → ∀ sql args, CompileUpdate tbl data ws = some (sql, args) →
        countQ sql = args.length ∧
        args = data.map (fun kv => kv.2) ++ ws.map (fun w => w.Value) ∧
        CompileUpdate tbl (mapData f data) (mapWheres f ws) =
          some (sql, args.map f)) ∧
    (∀ (α β : Type) (f : α → β) (tbl : String) (ws : List (WhereClause α)),
      BoolsOK ws → ∀ sql args, CompileDelete tbl ws = some (sql, args) →
        countQ sql = args.length ∧
        args = ws.map (fun w => w.Value) ∧
        CompileDelete tbl (mapWheres f ws) = some (sql, args.map f)) := by
  refine ⟨fun ε γ α qb h => reachable_boolsOK h, ?_, ?_, ?_, ?_⟩
  · intro ε γ α β f qb hb sql args h
    obtain ⟨h1, h2⟩ := compileSelect_spec hb h
    refine ⟨h1, h2, ?_⟩
    rw [compileSelect_mapVals, h]
    rfl
  · intro α β f tbl data sql args h
    obtain ⟨h1, h2⟩ := compileInsert_spec h
    refine ⟨h1, h2, ?_⟩
    rw [compileInsert_mapVals, h]
    rfl
  · intro α β f tbl data ws hb sql args h
    obtain ⟨h1, h2⟩ := compileUpdate_spec hb h
    refine ⟨h1, h2, ?_⟩
    rw [compileUpdate_mapVals, h]
    rfl
  · intro α β f tbl ws hb sql args h
    obtain ⟨h1, h2⟩ := compileDelete_spec hb h
    refine ⟨h1, h2, ?_⟩
    rw [compileDelete_mapVals, h]
    rfl

/-- Witness for C1 at a concrete builder state: users table, one WHERE
clause with value 42; the compiled SELECT has one placeholder and one
argument. -/
theorem c1_witness :
    BoolsOK qbW.wheres ∧
    countQ "SELECT * FROM `users` WHERE `id` = ?" = [(42 : Nat)].length :=
  ⟨by unfold BoolsOK; decide,
   (c1_placeholders_match_args.2.1 Unit Unit Nat Nat id qbW
      (by unfold BoolsOK; decide)
      "SELECT * FROM `users` WHERE `id` = ?" [42] (by decide)).1⟩

/-- C2: Wrap passes the star through verbatim; a dotted name whose parts
all match the identifier pattern comes back as the dot-join of the
backtick-quoted parts; any other accepted identifier matches the pattern
and comes back backtick-quoted; a failing identifier or failing dotted
part makes Wrap panic (none), and compilation aborts with it before any
SQL is produced. -/
theorem c2_wrap_identifier_safety :
    (Wrap "*" = some "*") ∧
    (∀ v, v ≠ "*" → v.data.contains '.' = true →
      (∀ p ∈ goSplitDot v, validIdentifier p = true) →
      Wrap v = some (goJoin "."
        ((goSplitDot v).map (fun p => "`" ++ p ++ "`")))) ∧
    (∀ v w, Wrap v = some w → v ≠ "*" → v.data.contains '.' = false →
      validIdentifier v = true ∧ w = "`" ++ v ++ "`") ∧
    (∀ v, v ≠ "*" → v.data.contains '.' = false → validIdentifier v = false →
      Wrap v = none) ∧
    (∀ v, v ≠ "*" → v.data.contains '.' = true →
      (∃ p ∈ goSplitDot v, validIdentifier p = false) → Wrap v = none) ∧
    (∀ (ε γ α : Type) (qb : QueryBuilder ε γ α),
      Wrap qb.table = none → CompileSelect qb = none) := by
  refine ⟨rfl, ?_, ?_, ?_, ?_, ?_⟩
  · intro v hstar hdot hall
    unfold Wrap
    rw [if_neg hstar, if_pos hdot,
        mapOpt_map (g := fun p => "`" ++ p ++ "`")
          (fun p hp => by unfold wrapPart; rw [if_pos (hall p hp)])]
  · intro v w h hstar hdot
    unfold Wrap at h
    rw [if_neg hstar, if_neg (by rw [hdot]; decide)] at h
    unfold wrapPart at h
    split at h
    · rename_i hok
      cases h
      exact ⟨hok, rfl⟩
    · cases h
  · intro v hstar hdot hbad
    unfold Wrap
    rw [if_neg hstar, if_neg (by rw [hdot]; decide)]
    unfold wrapPart
    rw [hbad]
    rfl
  · intro v hstar hdot hex
    obtain ⟨p, hp, hbad⟩ := hex
    unfold Wrap
    rw [if_neg hstar, if_pos hdot,
        mapOpt_none ⟨p, hp, by unfold wrapPart; rw [hbad]; rfl⟩]
  · intro ε γ α qb ht
    unfold CompileSelect
    rw [ht]
    rcases mapOpt Wrap qb.columns with _ | cols <;> rfl

/-- Witness for C2: a dotted name is quoted per part and an injection
attempt in an identifier aborts compilation. -/
theorem c2_witness :
    Wrap "a.b" = some "`a`.`b`" ∧
    Wrap "users; DROP TABLE users--" = none :=
  ⟨(c2_wrap_identifier_safety.2.1 "a.b" (by decide) (by decide)
      (by decide)).trans (by decide),
   c2_wrap_identifier_safety.2.2.2.1 "users; DROP TABLE users--"
     (by decide) (by decide) (by decide)⟩

theorem whereFrag_valid {w : WhereClause α} {isFirst : Bool} {s : String}
    (h : whereFrag isFirst w = some s) : validOperator w.Operator = true := by
  unfold whereFrag at h
  split at h
  · rename_i hok; exact hok
  · cases h

theorem whereFrag_invalid {w : WhereClause α} {isFirst : Bool}
    (hbad : ¬ validOperator w.Operator = true) : whereFrag isFirst w = none := by
  unfold whereFrag
  rw [if_neg hbad]

theorem wheresSQL_ops {ws : List (WhereClause α)} :
    ∀ {isFirst : Bool} {s : String}, wheresSQL isFirst ws = some s →
      ∀ w ∈ ws, validOperator w.Operator = true := by
  induction ws with
  | nil => intro _ _ _ w hw; cases hw
  | cons w ws ih =>
    intro isFirst s h z hz
    unfold wheresSQL at h
    rcases hf : whereFrag isFirst w with _ | sf <;> rw [hf] at h
    · cases h
    · rcases hr : wheresSQL false ws with _ | sr <;> rw [hr] at h
      · cases h
      · rcases List.mem_cons.mp hz with h1 | h2
        · exact h1 ▸ whereFrag_valid hf
        · exact ih hr z h2

theorem wheresSQL_invalid {ws : List (WhereClause α)} {w : WhereClause α}
    (hw : w ∈ ws) (hbad : ¬ validOperator w.Operator = true) :
    ∀ isFirst, wheresSQL isFirst ws = none := by
  induction ws with
  | nil => cases hw
  | cons z zs ih =>
    intro isFirst
    unfold wheresSQL
    rcases List.mem_cons.mp hw with h1 | h2
    · have hz : whereFrag isFirst z = none := by
        subst h1
        exact whereFrag_invalid hbad
      rw [hz]
    · rw [ih h2 false]
      rcases whereFrag isFirst z with _ | sf <;> rfl

theorem whereSuffix_ops {ws : List (WhereClause α)} {base s : String}
    (h : whereSuffix base ws = some s) :
    ∀ w ∈ ws, validOperator w.Operator = true := by
  unfold whereSuffix at h
  split at h
  · rename_i he
    rw [List.isEmpty_iff.mp he]
    intro w hw; cases hw
  · rcases hws : wheresSQL true ws with _ | x <;> rw [hws] at h
    · cases h
    · exact wheresSQL_ops hws

theorem whereSuffix_invalid {ws : List (WhereClause α)} {w : WhereClause α}
    (hw : w ∈ ws) (hbad : ¬ validOperator w.Operator = true) (base : String) :
    whereSuffix base ws = none := by
  unfold whereSuffix
  rw [if_neg (by cases ws with
    | nil => cases hw
    | cons z zs => simp)]
  rw [wheresSQL_invalid hw hbad true]

theorem compileSelect_ops {qb : QueryBuilder ε γ α} {sql : String}
    {args : List α} (h : CompileSelect qb = some (sql, args)) :
    ∀ w ∈ qb.wheres, validOperator w.Operator = true := by
  unfold CompileSelect at h
  split at h
  · rename_i cols tbl hcols htbl
    split at h
    · cases h
    · rename_i s1 hw
      exact whereSuffix_ops hw
  · cases h

theorem compileSelect_invalid {qb : QueryBuilder ε γ α} {w : WhereClause α}
    (hw : w ∈ qb.wheres) (hbad : ¬ validOperator w.Operator = true) :
    CompileSelect qb = none := by
  rcases h : CompileSelect qb with _ | r
  · rfl
  · obtain ⟨sql, args⟩ := r
    exact absurd (compileSelect_ops h w hw) hbad

theorem compileUpdate_ops {tbl : String} {data : List (String × α)}
    {ws : List (WhereClause α)} {sql : String} {args : List α}
    (h : CompileUpdate tbl data ws = some (sql, args)) :
    ∀ w ∈ ws, validOperator w.Operator = true := by
  unfold CompileUpdate at h
  split at h
  · split at h
    · rename_i s hwss
      exact whereSuffix_ops hwss
    · cases h
  · cases h

theorem compileUpdate_invalid {tbl : String} {data : List (String × α)}
    {ws : List (WhereClause α)} {w : WhereClause α}
    (hw : w ∈ ws) (hbad : ¬ validOperator w.Operator = true) :
    CompileUpdate tbl data ws = none := by
  rcases h : CompileUpdate tbl data ws with _ | r
  · rfl
  · obtain ⟨sql, args⟩ := r
    exact absurd (compileUpdate_ops h w hw) hbad

theorem compileDelete_ops {tbl : String} {ws : List (WhereClause α)}
    {sql : String} {args : List α}
    (h : CompileDelete tbl ws = some (sql, args)) :
    ∀ w ∈ ws, validOperator w.Operator = true := by
  unfold CompileDelete at h
  split at h
  · split at h
    · rename_i s hwss
      exact whereSuffix_ops hwss
    · cases h
  · cases h

theorem compileDelete_invalid {tbl : String} {ws : List (WhereClause α)}
    {w : WhereClause α} (hw : w ∈ ws)
    (hbad : ¬ validOperator w.Operator = true) :
    CompileDelete tbl ws = none := by
  rcases h : CompileDelete tbl ws with _ | r
  · rfl
  · obtain ⟨sql, args⟩ := r
    exact absurd (compileDelete_ops h w hw) hbad

theorem validOperator_mem (op : String) :
    validOperator op = true ↔ goToUpper (goTrim op) ∈ allowedOperators := by
  simp [validOperator]

/-- C3: the grammar whitelist is exactly the fifteen listed operators; an
operator passes validation exactly when its trimmed upper-cased form is
in that set; every WHERE clause of a successful compilation carries a
whitelisted operator and its emitted token is upper-case (a fixed point
of upper-casing); an operator outside the set makes the compilation
panic (none), for SELECT, UPDATE and DELETE alike. -/
theorem c3_operator_safety :
    (allowedOperators = ["=", "!=", "<>", "<", ">", "<=", ">=", "LIKE",
       "NOT LIKE", "IN", "NOT IN", "BETWEEN", "NOT BETWEEN", "IS", "IS NOT"]) ∧
    (∀ op, validOperator op = true ↔ goToUpper (goTrim op) ∈ allowedOperators) ∧
    (∀ (ε γ α : Type) (qb : QueryBuilder ε γ α) sql args,
      CompileSelect qb = some (sql, args) → ∀ w ∈ qb.wheres,
        goToUpper (goTrim w.Operator) ∈ allowedOperators ∧
        goToUpper (emittedOperator w.Operator) = emittedOperator w.Operator) ∧
    (∀ (ε γ α : Type) (qb : QueryBuilder ε γ α) (w : WhereClause α),
      w ∈ qb.wheres → goToUpper (goTrim w.Operator) ∉ allowedOperators →
      CompileSelect qb = none) ∧
    (∀ (α : Type) (tbl : String) (data : List (String × α))
      (ws : List (WhereClause α)) sql args,
      CompileUpdate tbl data ws = some (sql, args) → ∀ w ∈ ws,
        goToUpper (goTrim w.Operator) ∈ allowedOperators) ∧
    (∀ (α : Type) (tbl : String) (data : List (String × α))
      (ws : List (WhereClause α)) (w : WhereClause α),
      w ∈ ws → goToUpper (goTrim w.Operator) ∉ allowedOperators →
      CompileUpdate tbl data ws = none) ∧
    (∀ (α : Type) (tbl : String) (ws : List (WhereClause α)) sql args,
      CompileDelete tbl ws = some (sql, args) → ∀ w ∈ ws,
        goToUpper (goTrim w.Operator) ∈ allowedOperators) ∧
    (∀ (α : Type) (tbl : String) (ws : List (WhereClause α))
      (w : WhereClause α),
      w ∈ ws → goToUpper (goTrim w.Operator) ∉ allowedOperators →
      CompileDelete tbl ws = none) := by
  refine ⟨rfl, validOperator_mem, ?_, ?_, ?_, ?_, ?_, ?_⟩
  · intro ε γ α qb sql args h w hw
    exact ⟨(validOperator_mem w.Operator).mp (compileSelect_ops h w hw),
           goToUpper_idem w.Operator⟩
  · intro ε γ α qb w hw hbad
    exact compileSelect_invalid hw
      (fun hv => hbad ((validOperator_mem w.Operator).mp hv))
  · intro α tbl data ws sql args h w hw
    exact (validOperator_mem w.Operator).mp (compileUpdate_ops h w hw)
  · intro α tbl data ws w hw hbad
    exact compileUpdate_invalid hw
      (fun hv => hbad ((validOperator_mem w.Operator).mp hv))
  · intro α tbl ws sql args h w hw
    exact (validOperator_mem w.Operator).mp (compileDelete_ops h w hw)
  · intro α tbl ws w hw hbad
    exact compileDelete_invalid hw
      (fun hv => hbad ((validOperator_mem w.Operator).mp hv))

/-- Witness for C3 at the concrete builder state qbW: the equality
operator of its WHERE clause is whitelisted and its emitted token is
upper-case, and a DELETE whose clause carries the operator OR 1=1 panics. -/
theorem c3_witness :
    (goToUpper (goTrim "=") ∈ allowedOperators ∧
      goToUpper (emittedOperator "=") = emittedOperator "=") ∧
    CompileDelete "users"
      [⟨"id", "OR 1=1", (0 : Nat), "AND"⟩] = none :=
  ⟨c3_operator_safety.2.2.1 Unit Unit Nat qbW
      "SELECT * FROM `users` WHERE `id` = ?" [42] (by decide)
      ⟨"id", "=", 42, "AND"⟩ (by decide),
   c3_operator_safety.2.2.2.2.2.2.2 Nat "users"
     [⟨"id", "OR 1=1", 0, "AND"⟩] ⟨"id", "OR 1=1", 0, "AND"⟩
     (by decide) (by decide)⟩

/-- C7: OrderBy compares the trimmed upper-cased direction, keeps DESC,
and collapses every other input to ASC; the direction literal rendered
into any ORDER BY fragment is exactly ASC or DESC. -/
theorem c7_direction_whitelist :
    (∀ (ε γ α : Type) (qb : QueryBuilder ε γ α) (c d : String),
      (OrderBy qb c d).orders = qb.orders ++
        [⟨c, if goToUpper (goTrim d) = "DESC" then OrderDirection.Desc
             else OrderDirection.Asc⟩]) ∧
    (∀ d : OrderDirection, dirStr d = "ASC" ∨ dirStr d = "DESC") ∧
    (∀ (o : OrderClause) (s : String), orderFrag o = some s →
      ∃ c, Wrap o.Column = some c ∧ s = c ++ " " ++ dirStr o.Direction) := by
  refine ⟨?_, ?_, ?_⟩
  · intro ε γ α qb c d
    show qb.orders ++
        [⟨c, if goToUpper (goTrim d) = "DESC" then OrderDirection.Desc
             else if goToUpper (goTrim d) = "ASC" then OrderDirection.Asc
             else OrderDirection.Asc⟩] = _
    have hdir :
        (if goToUpper (goTrim d) = "DESC" then OrderDirection.Desc
         else if goToUpper (goTrim d) = "ASC" then OrderDirection.Asc
         else OrderDirection.Asc) =
        (if goToUpper (goTrim d) = "DESC" then OrderDirection.Desc
         else OrderDirection.Asc) := by
      by_cases h1 : goToUpper (goTrim d) = "DESC"
      · rw [if_pos h1, if_pos h1]
      · rw [if_neg h1, if_neg h1]
        by_cases h2 : goToUpper (goTrim d) = "ASC"
        · rw [if_pos h2]
        · rw [if_neg h2]
    rw [hdir]
  · intro d
    cases d
    · exact Or.inl rfl
    · exact Or.inr rfl
  · intro o s h
    unfold orderFrag at h
    rcases hw : Wrap o.Column with _ | c <;> rw [hw] at h
    · cases h
    · cases h
      exact ⟨c, rfl, rfl⟩

/-- Witness for C7: an injection attempt in the direction argument
collapses to ASC, and an ORDER BY fragment carries the literal ASC. -/
theorem c7_witness :
    (OrderBy (NewBuilder () () : QueryBuilder Unit Unit Nat) "name"
        "DESC; DROP TABLE users--").orders =
      [⟨"name", OrderDirection.Asc⟩] ∧
    (∃ c, Wrap "name" = some c ∧
      "`name` ASC" = c ++ " " ++ dirStr OrderDirection.Asc) :=
  ⟨(c7_direction_whitelist.1 Unit Unit Nat (NewBuilder () ()) "name"
      "DESC; DROP TABLE users--").trans (by decide),
   c7_direction_whitelist.2.2 ⟨"name", OrderDirection.Asc⟩ "`name` ASC"
     (by decide)⟩

/-- C10: ToSQL is read-only and deterministic: its state-passing
translation returns every field of the builder unchanged, and a second
call on the returned state yields the identical compile result. -/
theorem c10_tosql_pure :
    ∀ (ε γ α : Type) (qb : QueryBuilder ε γ α),
      (ToSQL qb).1 = qb ∧ (ToSQL ((ToSQL qb).1)).2 = (ToSQL qb).2 :=
  fun _ _ _ _ => ⟨rfl, rfl⟩

/-- C6: the dispatch walk prefers the static child at every node, falls
back to the only parameter child binding the bracket-stripped name to
the segment, returns 404 (none) when neither child exists or the
terminal node has no handler, and the same request always reaches the
same terminal node. -/
theorem c6_dispatch_deterministic :
    (∀ (η : Type) (n c : RNode η) (seg : String) (rest : List String)
      (ps : List (String × String)),
      findChild n.children seg = some c →
      walkNode n (seg :: rest) ps = walkNode c rest ps) ∧
    (∀ (η : Type) (n pc : RNode η) (seg : String) (rest : List String)
      (ps : List (String × String)),
      findChild n.children seg = none → n.paramChild = some pc →
      walkNode n (seg :: rest) ps =
        walkNode pc rest (paramInsert ps (stripBraces pc.pathPart) seg)) ∧
    (∀ (η : Type) (n : RNode η) (seg : String) (rest : List String)
      (ps : List (String × String)),
      findChild n.children seg = none → n.paramChild = none →
      walkNode n (seg :: rest) ps = none) ∧
    (∀ (η : Type) (root t : RNode η) (path : String)
      (ps : List (String × String)),
      walkNode root (splitPath path) [] = some (t, ps) →
      t.handler = none → dispatchTree root path = none) ∧
    (∀ (η : Type) (root : RNode η) (path : String)
      (r1 r2 : RNode η × List (String × String)),
      walkNode root (splitPath path) [] = some r1 →
      walkNode root (splitPath path) [] = some r2 → r1 = r2) := by
  refine ⟨?_, ?_, ?_, ?_, ?_⟩
  · intro η n c seg rest ps h
    conv_lhs => unfold walkNode
    rw [h]
  · intro η n pc seg rest ps h hp
    conv_lhs => unfold walkNode
    rw [h, hp]
  · intro η n seg rest ps h hp
    conv_lhs => unfold walkNode
    rw [h, hp]
  · intro η root t path ps h hh
    unfold dispatchTree
    rw [h]
    show (match t.handler with
          | none => none
          | some hh => some (hh, ps)) = none
    rw [hh]
  · intro η root path r1 r2 h1 h2
    rw [h1] at h2
    exact Option.some_inj.mp h2

/-- Witness for C6: with no static child for segment 42 the walk takes
the parameter child of the users node and binds id to 42. -/
theorem c6_witness :
    walkNode usersNodeW ["42"] [] =
      some (paramNodeW, [("id", "42")]) :=
  (c6_dispatch_deterministic.2.1 String usersNodeW paramNodeW "42" [] []
      rfl rfl).trans rfl

theorem goIntOfRat_nonneg {q : ℚ} (h : 0 ≤ q) : goIntOfRat q = ⌊q⌋ := by
  unfold goIntOfRat
  rw [Int.tdiv_eq_ediv (Rat.num_nonneg.mpr h) (by positivity), Rat.floor_def]

theorem allow_eq {rl : RateLimiter} {key : String} {now : ℚ}
    {b0 : RateBucket} {t1 : ℚ}
    (hb0 : b0 = (match lookupKey rl.buckets key with
                 | some b => b
                 | none => ⟨(rl.maxRequests : ℚ), now⟩))
    (ht1 : t1 = min (b0.tokens + (now - b0.lastRefillTime) * rl.refillRate)
                    ((rl.maxRequests : ℚ))) :
    Allow rl key now =
      (if 1 ≤ t1 then
        ({ rl with buckets := setKey rl.buckets key ⟨t1 - 1, now⟩ },
         true, goIntOfRat (t1 - 1), 0)
       else
        ({ rl with buckets := setKey rl.buckets key ⟨t1, now⟩ },
         false, 0, goIntOfRat (1 / rl.refillRate))) := by
  subst ht1
  subst hb0
  rfl

/-- C4 amended: on every admission attempt the bucket is located or
created, refilled to min(capacity, tokens + elapsed times refill rate)
and stamped with now; with at least one token the request is admitted,
the bucket decremented by one and the floor of the remaining tokens
reported; otherwise it is rejected and the retry-after seconds are the
float-to-int TRUNCATION of 1/refill_rate, which agrees with the floor
(not the ceiling of the claim) whenever the rate is positive. -/
theorem c4_admission_amended :
    ∀ (rl : RateLimiter) (key : String) (now : ℚ)
      (b0 : RateBucket) (t1 : ℚ),
      b0 = (match lookupKey rl.buckets key with
            | some b => b
            | none => ⟨(rl.maxRequests : ℚ), now⟩) →
      t1 = min (b0.tokens + (now - b0.lastRefillTime) * rl.refillRate)
               ((rl.maxRequests : ℚ)) →
      (Allow rl key now =
        (if 1 ≤ t1 then
          ({ rl with buckets := setKey rl.buckets key ⟨t1 - 1, now⟩ },
           true, ⌊t1 - 1⌋, 0)
         else
          ({ rl with buckets := setKey rl.buckets key ⟨t1, now⟩ },
           false, 0, goIntOfRat (1 / rl.refillRate)))) ∧
      (0 < rl.refillRate →
        goIntOfRat (1 / rl.refillRate) = ⌊1 / rl.refillRate⌋) := by
  intro rl key now b0 t1 hb0 ht1
  constructor
  · rw [allow_eq hb0 ht1]
    by_cases h1 : 1 ≤ t1
    · rw [if_pos h1, if_pos h1, goIntOfRat_nonneg (by linarith)]
    · rw [if_neg h1, if_neg h1]
  · intro hpos
    exact goIntOfRat_nonneg (by positivity)

/-- Counterexample to C4 as stated: with capacity 3 and window 10
seconds, three admissions for one key at time zero empty the bucket; the
fourth attempt is rejected with retry-after 3 seconds, while the ceiling
formula of the claim gives 4. -/
theorem c4_counterexample :
    Allow rlW "k" 0 = (rlW1, true, 2, 0) ∧
    Allow rlW1 "k" 0 = (rlW2, true, 1, 0) ∧
    Allow rlW2 "k" 0 = (rlW3, true, 0, 0) ∧
    Allow rlW3 "k" 0 = (rlW3, false, 0, 3) ∧
    ⌈1 / rlW3.refillRate⌉ = 4 ∧ (3 : ℤ) ≠ 4 := by
  refine ⟨?_, ?_, ?_, ?_, ?_, by decide⟩
  · unfold Allow rlW rlW1 NewRateLimiter lookupKey refillTokens setKey
    norm_num [goIntOfRat]
  · unfold Allow rlW1 rlW2 lookupKey refillTokens setKey
    norm_num [goIntOfRat]
  · unfold Allow rlW2 rlW3 lookupKey refillTokens setKey
    norm_num [goIntOfRat]
  · unfold Allow rlW3 lookupKey refillTokens setKey
    norm_num [goIntOfRat]
    decide
  · unfold rlW3
    norm_num
    rw [Int.ceil_eq_iff]
    norm_num

/-- Witness for C4 at the concrete limiter rlW, key k, time zero. -/
theorem c4_witness :
    (Allow rlW "k" 0 =
      (if 1 ≤ t1W then
        ({ rlW with buckets := setKey rlW.buckets "k" ⟨t1W - 1, 0⟩ },
         true, ⌊t1W - 1⌋, 0)
       else
        ({ rlW with buckets := setKey rlW.buckets "k" ⟨t1W, 0⟩ },
         false, 0, goIntOfRat (1 / rlW.refillRate)))) ∧
    goIntOfRat (1 / rlW.refillRate) = ⌊1 / rlW.refillRate⌋ :=
  let h := c4_admission_amended rlW "k" 0 b0W t1W rfl rfl
  ⟨h.1, h.2 (div_pos (Int.cast_pos.mpr (by decide))
               (Int.cast_pos.mpr (by decide)))⟩

theorem lookupKey_setKey (m : List (String × β)) (key : String) (v : β) :
    lookupKey (setKey m key v) key = some v := by
  induction m with
  | nil =>
    unfold setKey lookupKey
    rw [List.find?_cons_of_pos _ (by simp)]
    rfl
  | cons kb rest ih =>
    unfold setKey
    by_cases h : kb.1 = key
    · rw [if_pos h]
      unfold lookupKey
      rw [List.find?_cons_of_pos _ (by simp)]
      rfl
    · rw [if_neg h]
      unfold lookupKey
      rw [List.find?_cons_of_neg _ (by simp [h])]
      exact ih

/-- C9: refilling keeps the token count within zero and the capacity and
never decreases it; every admission attempt leaves the bucket of the key
within bounds, an admission decrementing the refilled count by exactly
one; a reaper eviction pass only removes buckets and alters none of the
surviving entries. -/
theorem c9_bucket_invariants :
    (∀ (rl : RateLimiter) (b : RateBucket) (now : ℚ),
      0 ≤ rl.refillRate → 0 ≤ (rl.maxRequests : ℚ) →
      0 ≤ b.tokens → b.lastRefillTime ≤ now →
      0 ≤ (refillTokens rl b now).tokens ∧
      (refillTokens rl b now).tokens ≤ (rl.maxRequests : ℚ)) ∧
    (∀ (rl : RateLimiter) (b : RateBucket) (now : ℚ),
      0 ≤ rl.refillRate → b.tokens ≤ (rl.maxRequests : ℚ) →
      b.lastRefillTime ≤ now →
      b.tokens ≤ (refillTokens rl b now).tokens) ∧
    (∀ (rl : RateLimiter) (key : String) (now : ℚ)
      (b0 : RateBucket) (t1 : ℚ),
      b0 = (match lookupKey rl.buckets key with
            | some b => b
            | none => ⟨(rl.maxRequests : ℚ), now⟩) →
      t1 = min (b0.tokens + (now - b0.lastRefillTime) * rl.refillRate)
               ((rl.maxRequests : ℚ)) →
      0 ≤ rl.refillRate → 0 ≤ (rl.maxRequests : ℚ) →
      0 ≤ b0.tokens → b0.lastRefillTime ≤ now →
      ∃ b2, lookupKey (Allow rl key now).1.buckets key = some b2 ∧
        0 ≤ b2.tokens ∧ b2.tokens ≤ (rl.maxRequests : ℚ) ∧
        ((Allow rl key now).2.1 = true → b2.tokens = t1 - 1)) ∧
    (∀ (rl : RateLimiter) (now : ℚ) (kb : String × RateBucket),
      kb ∈ (cleanupPass rl now).buckets → kb ∈ rl.buckets) := by
  refine ⟨?_, ?_, ?_, ?_⟩
  · intro rl b now hrate hcap htok hlast
    unfold refillTokens
    constructor
    · exact le_min (by nlinarith) hcap
    · exact min_le_right _ _
  · intro rl b now hrate hcap hlast
    unfold refillTokens
    exact le_min (by nlinarith) hcap
  · intro rl key now b0 t1 hb0 ht1 hrate hcap htok hlast
    have ht1nn : 0 ≤ t1 := by
      rw [ht1]
      exact le_min (by nlinarith) hcap
    have ht1cap : t1 ≤ (rl.maxRequests : ℚ) := ht1 ▸ min_le_right _ _
    rw [allow_eq hb0 ht1]
    by_cases h1 : 1 ≤ t1
    · rw [if_pos h1]
      refine ⟨⟨t1 - 1, now⟩, lookupKey_setKey _ _ _,
        by show (0 : ℚ) ≤ t1 - 1; linarith,
        by show t1 - 1 ≤ (rl.maxRequests : ℚ); linarith,
        fun _ => rfl⟩
    · rw [if_neg h1]
      refine ⟨⟨t1, now⟩, lookupKey_setKey _ _ _, ht1nn, ht1cap,
        fun hfalse => (Bool.false_ne_true hfalse).elim⟩
  · intro rl now kb hm
    exact List.mem_of_mem_filter hm

/-- Witness for C9: the first admission attempt on the concrete limiter
rlW keeps the bucket of key k within bounds and decrements by one. -/
theorem c9_witness :
    ∃ b2, lookupKey (Allow rlW "k" 0).1.buckets "k" = some b2 ∧
      0 ≤ b2.tokens ∧ b2.tokens ≤ (rlW.maxRequests : ℚ) ∧
      ((Allow rlW "k" 0).2.1 = true → b2.tokens = t1W - 1) :=
  c9_bucket_invariants.2.2.1 rlW "k" 0 b0W t1W rfl rfl
    (le_of_lt (div_pos (Int.cast_pos.mpr (by decide))
       (Int.cast_pos.mpr (by decide))))
    (Int.cast_nonneg.mpr (by decide))
    (Int.cast_nonneg.mpr (by decide))
    le_rfl

theorem getToken_stores (cs : CSRFStore) (sid : String) (now : ℚ)
    (fv : String) :
    ∃ t, lookupKey (GetToken cs sid now fv).1.tokens sid = some t ∧
      (GetToken cs sid now fv).2 = t.Value := by
  unfold GetToken
  rcases hl : lookupKey cs.tokens sid with _ | t
  · exact ⟨⟨fv, now + 7200⟩, lookupKey_setKey _ _ _, rfl⟩
  · by_cases hexp : now < t.ExpiresAt
    · refine ⟨t, ?_, ?_⟩
      · show lookupKey (if now < t.ExpiresAt then (cs, t.Value)
            else (⟨setKey (cs.tokens.filter (fun kv => !(kv.1 = sid))) sid
                     ⟨fv, now + 7200⟩⟩, fv)).1.tokens sid = some t
        rw [if_pos hexp]
        exact hl
      · show (if now < t.ExpiresAt then (cs, t.Value)
            else (⟨setKey (cs.tokens.filter (fun kv => !(kv.1 = sid))) sid
                     ⟨fv, now + 7200⟩⟩, fv)).2 = t.Value
        rw [if_pos hexp]
    · refine ⟨⟨fv, now + 7200⟩, ?_, ?_⟩
      · show lookupKey (if now < t.ExpiresAt then (cs, t.Value)
            else (⟨setKey (cs.tokens.filter (fun kv => !(kv.1 = sid))) sid
                     ⟨fv, now + 7200⟩⟩, fv)).1.tokens sid = _
        rw [if_neg hexp]
        exact lookupKey_setKey _ _ _
      · show (if now < t.ExpiresAt then (cs, t.Value)
            else (⟨setKey (cs.tokens.filter (fun kv => !(kv.1 = sid))) sid
                     ⟨fv, now + 7200⟩⟩, fv)).2 = _
        rw [if_neg hexp]

/-- Counterexample to C5 as stated: the middleware validates (and here
rejects) a TRACE request, although TRACE is not among POST, PUT, PATCH
and DELETE, so validation is not performed for those four methods only. -/
theorem c5_counterexample :
    (CSRFProtection ⟨[]⟩ ⟨"TRACE", "", "", "", "s"⟩ 0 "tok" "sid").2 =
      CSRFOutcome.forbidden ∧
    ("TRACE" ∉ (["POST", "PUT", "PATCH", "DELETE"] : List String)) :=
  ⟨rfl, by decide⟩

/-- C5 amended: GET, HEAD and OPTIONS bypass validation but still issue
a token for the session; every other method (not only POST, PUT, PATCH,
DELETE) is validated, rejecting with 403 exactly when the submitted
token is absent or fails validation; the submitted token is taken from
the header, then the form field, then the query parameter; and
validation fails on a missing entry, an expired entry, or a value
mismatch. -/
theorem c5_csrf_amended :
    (∀ (cs : CSRFStore) (r : CSRFRequest) (now : ℚ) (ft fs : String),
      (r.method = "GET" ∨ r.method = "HEAD" ∨ r.method = "OPTIONS") →
      (CSRFProtection cs r now ft fs).2 = CSRFOutcome.pass ∧
      ∃ t, lookupKey (CSRFProtection cs r now ft fs).1.tokens
          (csrfSession r fs) = some t) ∧
    (∀ (cs : CSRFStore) (r : CSRFRequest) (now : ℚ) (ft fs : String),
      ¬(r.method = "GET" ∨ r.method = "HEAD" ∨ r.method = "OPTIONS") →
      ((CSRFProtection cs r now ft fs).2 = CSRFOutcome.forbidden ↔
        (extractToken r = "" ∨
         ¬ ValidateToken (CSRFProtection cs r now ft fs).1
             (csrfSession r fs) (extractToken r) now = true))) ∧
    (∀ r : CSRFRequest,
      (r.headerToken ≠ "" → extractToken r = r.headerToken) ∧
      (r.headerToken = "" → r.formToken ≠ "" → extractToken r = r.formToken) ∧
      (r.headerToken = "" → r.formToken = "" →
        extractToken r = r.queryToken)) ∧
    (∀ (cs : CSRFStore) (sid tok : String) (now : ℚ),
      (lookupKey cs.tokens sid = none → ValidateToken cs sid tok now = false) ∧
      (∀ t, lookupKey cs.tokens sid = some t → t.ExpiresAt < now →
        ValidateToken cs sid tok now = false) ∧
      (∀ t, lookupKey cs.tokens sid = some t → ¬ t.Value = tok →
        ValidateToken cs sid tok now = false)) := by
  refine ⟨?_, ?_, ?_, ?_⟩
  · intro cs r now ft fs hm
    unfold CSRFProtection
    rw [if_pos hm]
    obtain ⟨t, ht, _⟩ := getToken_stores cs (csrfSession r fs) now ft
    exact ⟨rfl, t, ht⟩
  · intro cs r now ft fs hm
    unfold CSRFProtection
    rw [if_neg hm]
    by_cases hcond : extractToken r = "" ∨
        ¬ ValidateToken (GetToken cs (csrfSession r fs) now ft).1
            (csrfSession r fs) (extractToken r) now = true
    · rw [if_pos hcond]
      simpa using hcond
    · rw [if_neg hcond]
      constructor
      · intro hcontra
        cases hcontra
      · intro hc
        exact absurd hc (by simpa using hcond)
  · intro r
    refine ⟨?_, ?_, ?_⟩
    · intro h
      unfold extractToken
      rw [if_pos h]
    · intro h1 h2
      unfold extractToken
      rw [if_neg (by simp [h1]), if_pos h2]
    · intro h1 h2
      unfold extractToken
      rw [if_neg (by simp [h1]), if_neg (by simp [h2])]
  · intro cs sid tok now
    refine ⟨?_, ?_, ?_⟩
    · intro h
      unfold ValidateToken
      rw [h]
    · intro t ht hexp
      unfold ValidateToken
      rw [ht]
      show (if t.ExpiresAt < now then false else decide (t.Value = tok)) = false
      rw [if_pos hexp]
    · intro t ht hne
      unfold ValidateToken
      rw [ht]
      show (if t.ExpiresAt < now then false else decide (t.Value = tok)) = false
      by_cases hexp : t.ExpiresAt < now
      · rw [if_pos hexp]
      · rw [if_neg hexp]
        simpa using hne

/-- Witness for C5: a GET request passes and leaves an issued token in
the store, and a POST without any submitted token is rejected. -/
theorem c5_witness :
    ((CSRFProtection ⟨[]⟩ ⟨"GET", "", "", "", "s"⟩ 0 "tok" "sid").2 =
        CSRFOutcome.pass ∧
      ∃ t, lookupKey
          (CSRFProtection ⟨[]⟩ ⟨"GET", "", "", "", "s"⟩ 0 "tok" "sid").1.tokens
          (csrfSession ⟨"GET", "", "", "", "s"⟩ "sid") = some t) ∧
    ((CSRFProtection ⟨[]⟩ ⟨"POST", "", "", "", "s"⟩ 0 "tok" "sid").2 =
        CSRFOutcome.forbidden ↔
      (extractToken ⟨"POST", "", "", "", "s"⟩ = "" ∨
       ¬ ValidateToken
           (CSRFProtection ⟨[]⟩ ⟨"POST", "", "", "", "s"⟩ 0 "tok" "sid").1
           (csrfSession ⟨"POST", "", "", "", "s"⟩ "sid")
           (extractToken ⟨"POST", "", "", "", "s"⟩) 0 = true)) :=
  ⟨c5_csrf_amended.1 ⟨[]⟩ ⟨"GET", "", "", "", "s"⟩ 0 "tok" "sid"
     (Or.inl rfl),
   c5_csrf_amended.2.1 ⟨[]⟩ ⟨"POST", "", "", "", "s"⟩ 0 "tok" "sid"
     (by decide)⟩

theorem reaperRun_stopped (h : ReaperHandle) :
    ∀ (evs : List ReaperEvent) (st : ReaperState),
      st.stopped = true → reaperRun h st evs = st := by
  intro evs
  induction evs with
  | nil => intro st _; rfl
  | cons e es ih =>
    intro st hs
    have hstep : reaperStep h st e = st := by
      cases e with
      | stop =>
        obtain ⟨s, c⟩ := st
        cases hs
        rfl
      | tick now =>
        show (if st.stopped = true then st
              else ⟨false, st.cache.filter (fun e =>
                if now - e.2 > h.idleMax then false else true)⟩) = st
        rw [if_pos hs]
    show reaperRun h (reaperStep h st e) es = st
    rw [hstep]
    exact ih st hs

/-- C8 (the stoppable InitScanner implementation is absent from the
sources and is modelled from the spec): init returns a handle carrying
the interval and idle threshold; a stop signal on the cancellation
channel marks the loop stopped without touching the cache; a tick on a
live loop evicts exactly the entries idle beyond the threshold; a
stopped loop never changes state again; and any run that receives stop
ends stopped with the cache exactly as it was at the stop, so no further
eviction step ever occurs. -/
theorem c8_reaper_stoppable :
    (∀ (interval idleMax : ℚ),
      (InitScanner interval idleMax).interval = interval ∧
      (InitScanner interval idleMax).idleMax = idleMax) ∧
    (∀ (h : ReaperHandle) (st : ReaperState),
      reaperStep h st ReaperEvent.stop = ⟨true, st.cache⟩) ∧
    (∀ (h : ReaperHandle) (st : ReaperState) (now : ℚ),
      st.stopped = false →
      reaperStep h st (ReaperEvent.tick now) =
        ⟨false, st.cache.filter (fun e =>
          if now - e.2 > h.idleMax then false else true)⟩) ∧
    (∀ (h : ReaperHandle) (st : ReaperState) (evs : List ReaperEvent),
      st.stopped = true → reaperRun h st evs = st) ∧
    (∀ (h : ReaperHandle) (st : ReaperState)
      (evs1 evs2 : List ReaperEvent),
      reaperRun h st (evs1 ++ ReaperEvent.stop :: evs2) =
        ⟨true, (reaperRun h st evs1).cache⟩) := by
  refine ⟨fun i m => ⟨rfl, rfl⟩, fun h st => rfl, ?_, ?_, ?_⟩
  · intro h st now hs
    unfold reaperStep
    rw [hs]
    rfl
  · intro h st evs hs
    exact reaperRun_stopped h evs st hs
  · intro h st evs1
    induction evs1 generalizing st with
    | nil =>
      intro evs2
      show reaperRun h (reaperStep h st ReaperEvent.stop) evs2 = _
      exact reaperRun_stopped h evs2 ⟨true, st.cache⟩ rfl
    | cons e es ih =>
      intro evs2
      show reaperRun h (reaperStep h st e) (es ++ ReaperEvent.stop :: evs2) = _
      rw [ih (reaperStep h st e) evs2]
      rfl

/-- Witness for C8: a stopped reaper state survives a later tick with
its cache intact. -/
theorem c8_witness :
    reaperRun (InitScanner 600 1800) ⟨true, [("T", 0)]⟩
      [ReaperEvent.tick 10000] = ⟨true, [("T", 0)]⟩ :=
  c8_reaper_stoppable.2.2.2.1 (InitScanner 600 1800) ⟨true, [("T", 0)]⟩
    [ReaperEvent.tick 10000] rfl

end Conduit
